import Mathlib

/-!
Verification of the reconciliation engine of the HuluDataComp repository
(src/dataComparer.js, second revision unless noted otherwise).

The engine works on records whose values are JavaScript scalars: strings,
numbers, booleans, null, or absent (undefined).  We embed records as
association lists from field names to scalar values; an absent binding
models an undefined property.  JavaScript string operations used by the
code (toLowerCase, trim, Array.prototype.join) are modelled on the
character-list representation of Lean strings.
-/

/-- Scalar value of a record field: JS string, number, boolean or null.
Numbers are embedded as integers; the engine never computes with them,
it only stringifies and compares them. -/
inductive JSValue where
  | vstr (s : String)
  | vnum (n : Int)
  | vbool (b : Bool)
  | vnull
deriving DecidableEq

/-- A record is an association list from field names to scalar values.
A missing binding models an undefined (absent) property. -/
abbrev JSRecord := List (String × JSValue)

/-- Property read, record[key]: the first binding of the field, none when absent. -/
def jsGet : JSRecord → String → Option JSValue
  | [], _ => none
  | (k, v) :: t, key => if k = key then some v else jsGet t key

/-- Model of JavaScript String.prototype.toLowerCase. -/
def strLower (s : String) : String :=
  ⟨s.data.map Char.toLower⟩

/-- Model of JavaScript String.prototype.trim: drop whitespace from both ends. -/
def strTrim (s : String) : String :=
  ⟨((s.data.dropWhile Char.isWhitespace).reverse.dropWhile Char.isWhitespace).reverse⟩

/-- Model of Array.prototype.join with the "|" delimiter. -/
def joinBar : List String → String
  | [] => ""
  | [s] => s
  | s :: t => s ++ "|" ++ joinBar t

/-- Boolean membership test on a list of strings (models Set.has / includes). -/
def memStr (key : String) : List String → Bool
  | [] => false
  | k :: t => if k = key then true else memStr key t

/-- String contributed by one field value to the composite key, before the
joined string is lowercased and trimmed (src/dataComparer.js 408-410):
null and undefined become the empty string, every other value is coerced
to a string by the join. -/
def valueFieldString : Option JSValue → String
  | none => ""
  | some .vnull => ""
  | some (.vstr s) => s
  | some (.vnum n) => toString n
  | some (.vbool b) => if b then "true" else "false"

/-- Field contribution of a record to the composite key. -/
def fieldString (record : JSRecord) (key : String) : String :=
  valueFieldString (jsGet record key)

/-- createCompositeKey (src/dataComparer.js 408-410): map the fields of the
spec to strings, join with "|", lowercase the joined string, then trim it. -/
def createCompositeKey (record : JSRecord) (compositeKeys : List String) : String :=
  strTrim (strLower (joinBar (compositeKeys.map (fieldString record))))

/-- A field value that contributes the empty marker to a composite key:
null, undefined (absent) or the empty string. -/
def isEmptyMarker : Option JSValue → Bool
  | none => true
  | some .vnull => true
  | some (.vstr s) => decide (s = "")
  | some _ => false

/-- Two field values that the key builder cannot distinguish: both are the
empty marker, or both are strings equal up to letter case, or they are the
same value. -/
def keyEquivVal (v w : Option JSValue) : Prop :=
  (isEmptyMarker v = true ∧ isEmptyMarker w = true)
  ∨ (∃ s t, v = some (.vstr s) ∧ w = some (.vstr t) ∧ strLower s = strLower t)
  ∨ v = w

/-- Duplicate entry pushed by getDuplicateStats (src/dataComparer.js 430-434). -/
structure DupEntry where
  record : JSRecord
  compositeKey : String
  duplicateCount : Nat
deriving DecidableEq

/-- Loop state of getDuplicateStats (src/dataComparer.js 413-416):
the uniqueKeys set, the uniqueData array, the duplicates array and the
duplicateSet set. -/
structure DedupState where
  uniqueKeys : List String
  uniqueData : List JSRecord
  duplicates : List DupEntry
  duplicateSet : List String
deriving DecidableEq

/-- duplicates.find(d => d.compositeKey === key).duplicateCount += 1
(src/dataComparer.js 426-427): increment the count of the first entry
carrying the key; leave the list unchanged when no entry matches. -/
def bumpDup (key : String) : List DupEntry → List DupEntry
  | [] => []
  | d :: ds =>
    if d.compositeKey = key
    then { d with duplicateCount := d.duplicateCount + 1 } :: ds
    else d :: bumpDup key ds

/-- One iteration of the getDuplicateStats loop (src/dataComparer.js 417-437). -/
def dedupStep (cks : List String) (st : DedupState) (record : JSRecord) : DedupState :=
  let key := createCompositeKey record cks
  if memStr key st.uniqueKeys then
    if memStr key st.duplicateSet then
      { st with duplicates := bumpDup key st.duplicates }
    else
      { st with duplicates := st.duplicates ++ [⟨record, key, 1⟩],
                duplicateSet := st.duplicateSet ++ [key] }
  else
    { st with uniqueKeys := st.uniqueKeys ++ [key],
              uniqueData := st.uniqueData ++ [record] }

/-- Result record of getDuplicateStats (src/dataComparer.js 439-445). -/
structure DupStats where
  totalRecords : Nat
  uniqueRecords : List JSRecord
  uniqueCount : Nat
  duplicateRecords : List DupEntry
  duplicateCount : Nat
deriving DecidableEq

/-- getDuplicateStats (src/dataComparer.js 412-446): run the loop over the
data and package the result; duplicateCount is the reduce-sum of the
per-entry counts. -/
def getDuplicateStats (data : List JSRecord) (cks : List String) : DupStats :=
  let fin := data.foldl (dedupStep cks) ⟨[], [], [], []⟩
  { totalRecords := data.length
    uniqueRecords := fin.uniqueData
    uniqueCount := fin.uniqueData.length
    duplicateRecords := fin.duplicates
    duplicateCount := (fin.duplicates.map DupEntry.duplicateCount).sum }

/-- Reference function written from the words of claim C3: the first record
observed for each dedup key, in first-occurrence order, relative to a set of
already seen keys. -/
def specFirstOccurrences (cks : List String) : List JSRecord → List String → List JSRecord
  | [], _ => []
  | r :: rs, seen =>
    if memStr (createCompositeKey r cks) seen then specFirstOccurrences cks rs seen
    else r :: specFirstOccurrences cks rs (seen ++ [createCompositeKey r cks])

/-- A keyed group map in insertion order, modelling the JS Map from composite
key to the array of records pushed under that key. -/
abbrev GroupMap := List (String × List JSRecord)

/-- Insert one record under its key (src/dataComparer.js 761-768): append to
the existing group of the key, or append a new singleton group at the end. -/
def groupInsert (key : String) (r : JSRecord) : GroupMap → GroupMap
  | [] => [(key, [r])]
  | (k, g) :: t => if k = key then (k, g ++ [r]) :: t else (k, g) :: groupInsert key r t

/-- Build the key-to-records map of one side (src/dataComparer.js 761-777). -/
def buildGroups (cks : List String) (records : List JSRecord) : GroupMap :=
  records.foldl (fun m r => groupInsert (createCompositeKey r cks) r m) []

/-- Map.has(key). -/
def hasGroup : GroupMap → String → Bool
  | [], _ => false
  | (k, _) :: t, key => if k = key then true else hasGroup t key

/-- Map.get(key), with the empty list standing for a missing key (groups of
buildGroups are never empty, so the two are not confused). -/
def lookupGroup : GroupMap → String → List JSRecord
  | [], _ => []
  | (k, g) :: t, key => if k = key then g else lookupGroup t key

/-- typeof v === 'string' ? v.toLowerCase() : v  (src/dataComparer.js 855-856). -/
def lowerIfString : Option JSValue → Option JSValue
  | some (.vstr s) => some (.vstr (strLower s))
  | v => v

/-- isEqual (src/dataComparer.js 847-863): false when the two groups have
different sizes, otherwise compare the listed exactMatchKeys on the first
record of each group, lowercasing string values, with strict equality. -/
def isEqual (excelRecords dbRecords : List JSRecord) (exactMatchKeys : List String) : Bool :=
  if excelRecords.length ≠ dbRecords.length then false
  else
    exactMatchKeys.all fun key =>
      decide (lowerIfString (jsGet (excelRecords.headD []) key)
        = lowerIfString (jsGet (dbRecords.headD []) key))

/-- The reportData object assembled by compareData (src/dataComparer.js
758, 791-835).  The dynamic field name exactMatchesWith<keys> is embedded as
exactMatchKeyList. -/
structure ReportData where
  recordsToAddInDB : List (List JSRecord)
  numberOfRecordsToAddInDB : Nat
  recordsToDeleteFromDB : List (List JSRecord)
  numberOfRecordsToDeleteFromDB : Nat
  changesRequiredInDB : List (List JSRecord × List JSRecord)
  exactMatchKeyList : List String
  exactMatches : List (List JSRecord × List JSRecord)
  noOfExactMatchKeys : Nat
  noOfChangesRequiredInDB : Nat
  noOfExactMatches : Nat
deriving DecidableEq

/-- Assembly of reportData after the uniqueness gate has passed
(src/dataComparer.js 791-835): additions are the source groups whose key is
absent from the store map (counted record-wise), deletions the store groups
whose key is absent from the source map (counted group-wise), and each
overlapping key goes to exactMatches or changesRequiredInDB according to
isEqual. -/
def mkReportData (excelMap dbMap : GroupMap) (exactMatchKeys : List String) : ReportData :=
  let recordsToAdd := (excelMap.filter fun e => !hasGroup dbMap e.1).map fun e => e.2
  let recordsToDelete := (dbMap.filter fun e => !hasGroup excelMap e.1).map fun e => e.2
  let overlaps := excelMap.filter fun e => hasGroup dbMap e.1
  let changesL := (overlaps.filter fun e => !isEqual e.2 (lookupGroup dbMap e.1) exactMatchKeys).map
      fun e => (e.2, lookupGroup dbMap e.1)
  let matchesL := (overlaps.filter fun e => isEqual e.2 (lookupGroup dbMap e.1) exactMatchKeys).map
      fun e => (e.2, lookupGroup dbMap e.1)
  { recordsToAddInDB := recordsToAdd
    numberOfRecordsToAddInDB := (recordsToAdd.map List.length).sum
    recordsToDeleteFromDB := recordsToDelete
    numberOfRecordsToDeleteFromDB := recordsToDelete.length
    changesRequiredInDB := changesL
    exactMatchKeyList := overlaps.map fun e => e.1
    exactMatches := matchesL
    noOfExactMatchKeys := (overlaps.map fun e => e.1).length
    noOfChangesRequiredInDB := changesL.length
    noOfExactMatches := matchesL.length }

/-- compareData (src/dataComparer.js 754-845): group both sides by the
compare key; if any store-side group holds more than one record, fail with
no report (the function returns success false and nothing else); otherwise
return the assembled reportData. -/
def compareData (uniqueRecords dbRecords : List JSRecord)
    (compositeKeys exactMatchKeys : List String) : Option ReportData :=
  let excelMap := buildGroups compositeKeys uniqueRecords
  let dbMap := buildGroups compositeKeys dbRecords
  if dbMap.any fun e => decide (1 < e.2.length) then none
  else some (mkReportData excelMap dbMap exactMatchKeys)

/-- Listed-field equality as the specification words it: strings compare
case-insensitively, all other values by exact equality. -/
def specExactFieldEq : Option JSValue → Option JSValue → Bool
  | some (.vstr s), some (.vstr t) => decide (strLower s = strLower t)
  | v, w => decide (v = w)

/-- value !== null && value !== undefined && value !== '' (first revision of
src/dataComparer.js, getChangeType 378-379). -/
def hasValue : Option JSValue → Bool
  | none => false
  | some .vnull => false
  | some (.vstr s) => decide (s ≠ "")
  | some _ => true

/-- getChangeType (first revision of src/dataComparer.js, 377-385). -/
def getChangeType (excelValue dbValue : Option JSValue) : String :=
  if !hasValue excelValue && !hasValue dbValue then "NO_CHANGE"
  else if !hasValue dbValue && hasValue excelValue then "FIELD_ADDED"
  else if hasValue dbValue && !hasValue excelValue then "FIELD_REMOVED"
  else "FIELD_MODIFIED"

/-- normalizeValue (first revision of src/dataComparer.js, 363-369):
null/undefined to the empty string, strings trimmed then lowercased,
numbers and booleans stringified. -/
def normalizeValue : Option JSValue → String
  | none => ""
  | some .vnull => ""
  | some (.vstr s) => strLower (strTrim s)
  | some (.vnum n) => toString n
  | some (.vbool b) => if b then "true" else "false"

/-- First-occurrence deduplication of a key list, modelling the JS Set
constructed from the spread of both key arrays. -/
def dedupKeysAux : List String → List String → List String
  | [], _ => []
  | k :: t, seen => if memStr k seen then dedupKeysAux t seen else k :: dedupKeysAux t (k :: seen)

/-- new Set of Object.keys of both records (first revision, 332-335). -/
def allFields (excelRecord dbRecord : JSRecord) : List String :=
  dedupKeysAux (excelRecord.map Prod.fst ++ dbRecord.map Prod.fst) []

/-- One field difference entry (first revision, 346-351). -/
structure FieldDifference where
  field : String
  excelValue : Option JSValue
  dbValue : Option JSValue
  changeType : String
deriving DecidableEq

/-- findRecordDifferences (first revision, 328-356): walk the union of field
names and push an entry for every field whose normalized values differ. -/
def findRecordDifferences (excelRecord dbRecord : JSRecord) : List FieldDifference :=
  (allFields excelRecord dbRecord).filterMap fun field =>
    if normalizeValue (jsGet excelRecord field) ≠ normalizeValue (jsGet dbRecord field) then
      some { field := field
             excelValue := jsGet excelRecord field
             dbValue := jsGet dbRecord field
             changeType := getChangeType (jsGet excelRecord field) (jsGet dbRecord field) }
    else none

/-- Observation of the differ at one field: the changeType of its entry in
the differences list, NO_CHANGE when the differ emitted no entry for it. -/
def differClassify (excelRecord dbRecord : JSRecord) (field : String) : String :=
  match (findRecordDifferences excelRecord dbRecord).find?
      (fun d => decide (d.field = field)) with
  | some d => d.changeType
  | none => "NO_CHANGE"

/-- Record outcome of the first-revision compareData (266-283): any pushed
difference makes the pair an UPDATE, otherwise it is an exact match, which
that revision labels NO_CHANGE. -/
def recordOutcomeV1 (excelRecord dbRecord : JSRecord) : String :=
  if 0 < (findRecordDifferences excelRecord dbRecord).length then "UPDATE" else "NO_CHANGE"

/-- Per-field classification as the words of claim C4 state it: NO_CHANGE
when both sides are empty or equal after normalization, FIELD_ADDED when
only the source side is non-empty, FIELD_REMOVED when only the store side is
non-empty, FIELD_MODIFIED when both are non-empty and differ after
normalization. -/
def specClassify (sourceValue storeValue : Option JSValue) : String :=
  if normalizeValue sourceValue = normalizeValue storeValue then "NO_CHANGE"
  else if hasValue sourceValue && !hasValue storeValue then "FIELD_ADDED"
  else if !hasValue sourceValue && hasValue storeValue then "FIELD_REMOVED"
  else "FIELD_MODIFIED"

/-- Decision core of generateDuplicateReport (src/dataComparer.js 456-460,
471, 528): a missing or empty composite key spec returns the failure result
carrying no uniqueRecords; otherwise, on the non-error path, the unique
records of getDuplicateStats are returned. -/
def generateDuplicateReport (data : List JSRecord)
    (compositeKeys : Option (List String)) : Option (List JSRecord) :=
  match compositeKeys with
  | none => none
  | some [] => none
  | some cks => some (getDuplicateStats data cks).uniqueRecords

theorem strLower_append (a b : String) :
    strLower (a ++ b) = strLower a ++ strLower b := by
  cases a with
  | mk da =>
    cases b with
    | mk db =>
      show strLower ⟨da ++ db⟩ = _
      simp only [strLower, List.map_append]
      rfl

theorem strLower_empty : strLower "" = "" := rfl

/-- Lowercasing commutes with the "|" join. -/
theorem strLower_joinBar (l : List String) :
    strLower (joinBar l) = joinBar (l.map strLower) := by
  induction l with
  | nil => rfl
  | cons s t ih =>
    cases t with
    | nil => rfl
    | cons s' t' =>
      show strLower (s ++ "|" ++ joinBar (s' :: t')) = _
      rw [strLower_append, strLower_append, ih]
      rfl

theorem valueFieldString_of_emptyMarker {v : Option JSValue}
    (h : isEmptyMarker v = true) : valueFieldString v = "" := by
  match v with
  | none => rfl
  | some .vnull => rfl
  | some (.vstr s) =>
      have hs : s = "" := by simpa [isEmptyMarker] using h
      simp [valueFieldString, hs]
  | some (.vnum n) => simp [isEmptyMarker] at h
  | some (.vbool b) => simp [isEmptyMarker] at h

theorem strLower_fieldString_eq {r r' : JSRecord} {k : String}
    (h : keyEquivVal (jsGet r k) (jsGet r' k)) :
    strLower (fieldString r k) = strLower (fieldString r' k) := by
  unfold fieldString
  rcases h with ⟨h1, h2⟩ | ⟨s, t, hv, hw, hst⟩ | heq
  · rw [valueFieldString_of_emptyMarker h1, valueFieldString_of_emptyMarker h2]
  · rw [hv, hw]
    simpa [valueFieldString] using hst
  · rw [heq]

/-- Claim C2 (amended): the composite key is invariant under letter-case
changes of string field values, and null, undefined, absent and empty-string
field values all contribute the same empty marker; per-field leading and
trailing whitespace is NOT in general erased (only the whole joined key is
trimmed), so whitespace invariance is dropped from the claim. -/
theorem C2_key_invariance (r r' : JSRecord) (cks : List String)
    (h : ∀ k ∈ cks, keyEquivVal (jsGet r k) (jsGet r' k)) :
    createCompositeKey r cks = createCompositeKey r' cks := by
  unfold createCompositeKey
  rw [strLower_joinBar, strLower_joinBar, List.map_map, List.map_map]
  have hmap : cks.map (strLower ∘ fieldString r) = cks.map (strLower ∘ fieldString r') := by
    apply List.map_congr_left
    intro k hk
    exact strLower_fieldString_eq (h k hk)
  rw [hmap]

/-- Claim C2, counterexample: adding a leading space to the string value of
the second key field changes the composite key, because trimming happens
only at the ends of the whole joined key, not per field. -/
theorem C2_counterexample :
    createCompositeKey [("a", JSValue.vstr "x"), ("b", JSValue.vstr " y")] ["a", "b"]
      ≠ createCompositeKey [("a", JSValue.vstr "x"), ("b", JSValue.vstr "y")] ["a", "b"] := by
  decide

theorem C2_witness :
    (∀ k ∈ (["a", "b"] : List String),
        keyEquivVal (jsGet [("a", JSValue.vstr "HELLO"), ("b", JSValue.vnull)] k)
          (jsGet [("a", JSValue.vstr "hello"), ("b", JSValue.vstr "")] k))
    ∧ createCompositeKey [("a", JSValue.vstr "HELLO"), ("b", JSValue.vnull)] ["a", "b"]
        = createCompositeKey [("a", JSValue.vstr "hello"), ("b", JSValue.vstr "")] ["a", "b"] := by
  have h : ∀ k ∈ (["a", "b"] : List String),
      keyEquivVal (jsGet [("a", JSValue.vstr "HELLO"), ("b", JSValue.vnull)] k)
        (jsGet [("a", JSValue.vstr "hello"), ("b", JSValue.vstr "")] k) := by
    intro k hk
    simp only [List.mem_cons, List.not_mem_nil, or_false] at hk
    rcases hk with rfl | rfl
    · exact Or.inr (Or.inl ⟨"HELLO", "hello", by decide, by decide, by decide⟩)
    · exact Or.inl ⟨by decide, by decide⟩
  exact ⟨h, C2_key_invariance _ _ _ h⟩

theorem memStr_iff (key : String) (l : List String) : memStr key l = true ↔ key ∈ l := by
  induction l with
  | nil => simp [memStr]
  | cons k t ih =>
    simp only [memStr, List.mem_cons]
    by_cases h : k = key
    · simp [h]
    · simp only [if_neg h, ih]
      constructor
      · exact Or.inr
      · rintro (rfl | hm)
        · exact absurd rfl h
        · exact hm

theorem bumpDup_map_key (key : String) (l : List DupEntry) :
    (bumpDup key l).map DupEntry.compositeKey = l.map DupEntry.compositeKey := by
  induction l with
  | nil => rfl
  | cons d ds ih =>
    by_cases h : d.compositeKey = key
    · simp [bumpDup, h]
    · simp [bumpDup, h, ih]

theorem bumpDup_sum (key : String) (l : List DupEntry)
    (h : key ∈ l.map DupEntry.compositeKey) :
    ((bumpDup key l).map DupEntry.duplicateCount).sum
      = (l.map DupEntry.duplicateCount).sum + 1 := by
  induction l with
  | nil => simp at h
  | cons d ds ih =>
    by_cases hd : d.compositeKey = key
    · simp only [bumpDup, if_pos hd, List.map_cons, List.sum_cons]
      omega
    · have h' : key ∈ ds.map DupEntry.compositeKey := by
        simp only [List.map_cons, List.mem_cons] at h
        rcases h with h | h
        · exact absurd h.symm hd
        · exact h
      simp only [bumpDup, if_neg hd, List.map_cons, List.sum_cons, ih h']
      omega

theorem insert_sdiff_mem {α : Type} [DecidableEq α] {k : α} {A S : Finset α} (hk : k ∈ S) :
    insert k A \ S = A \ S := by
  ext x
  simp only [Finset.mem_sdiff, Finset.mem_insert]
  constructor
  · rintro ⟨hx | hx, hs⟩
    · subst hx; exact absurd hk hs
    · exact ⟨hx, hs⟩
  · rintro ⟨hx, hs⟩
    exact ⟨Or.inr hx, hs⟩

theorem card_insert_sdiff_not_mem {α : Type} [DecidableEq α] {k : α} {A S : Finset α}
    (hk : k ∉ S) :
    (insert k A \ S).card = (A \ insert k S).card + 1 := by
  have h1 : insert k A \ S = insert k (A \ S) := by
    ext x
    simp only [Finset.mem_sdiff, Finset.mem_insert]
    constructor
    · rintro ⟨hx | hx, hs⟩
      · exact Or.inl hx
      · exact Or.inr ⟨hx, hs⟩
    · rintro (hx | ⟨hx, hs⟩)
      · subst hx; exact ⟨Or.inl rfl, hk⟩
      · exact ⟨Or.inr hx, hs⟩
  have h2 : A \ insert k S = (A \ S).erase k := by
    ext x
    simp only [Finset.mem_sdiff, Finset.mem_insert, Finset.mem_erase]
    constructor
    · rintro ⟨hx, hs⟩
      push_neg at hs
      exact ⟨hs.1, hx, hs.2⟩
    · rintro ⟨hne, hx, hs⟩
      refine ⟨hx, ?_⟩
      rintro (rfl | h)
      · exact hne rfl
      · exact hs h
  have h3 : insert k (A \ S) = insert k ((A \ S).erase k) := by
    ext x
    simp only [Finset.mem_insert, Finset.mem_erase]
    constructor
    · rintro (hx | hx)
      · exact Or.inl hx
      · by_cases hxk : x = k
        · exact Or.inl hxk
        · exact Or.inr ⟨hxk, hx⟩
    · rintro (hx | ⟨hne, hx⟩)
      · exact Or.inl hx
      · exact Or.inr hx
  rw [h1, h2, h3, Finset.card_insert_of_not_mem (Finset.not_mem_erase _ _)]

/-- Number of records surviving the reference pass equals the number of
distinct composite keys not yet seen. -/
theorem specFirstOccurrences_length (cks : List String) :
    ∀ (rs : List JSRecord) (seen : List String),
    (specFirstOccurrences cks rs seen).length
      = ((rs.map (fun r => createCompositeKey r cks)).toFinset \ seen.toFinset).card := by
  intro rs
  induction rs with
  | nil => intro seen; simp [specFirstOccurrences]
  | cons r t ih =>
    intro seen
    cases hmem : memStr (createCompositeKey r cks) seen with
    | true =>
      have hk : createCompositeKey r cks ∈ seen.toFinset := by
        rw [List.mem_toFinset]
        exact (memStr_iff _ _).mp hmem
      have hspec : specFirstOccurrences cks (r :: t) seen = specFirstOccurrences cks t seen := by
        simp [specFirstOccurrences, hmem]
      rw [hspec, ih seen, List.map_cons, List.toFinset_cons, insert_sdiff_mem hk]
    | false =>
      have hk : createCompositeKey r cks ∉ seen.toFinset := by
        rw [List.mem_toFinset]
        intro hmem'
        have hcontra := (memStr_iff _ _).mpr hmem'
        rw [hmem] at hcontra
        exact Bool.false_ne_true hcontra
      have hspec : specFirstOccurrences cks (r :: t) seen
          = r :: specFirstOccurrences cks t (seen ++ [createCompositeKey r cks]) := by
        simp [specFirstOccurrences, hmem]
      have hseen : (seen ++ [createCompositeKey r cks]).toFinset
          = insert (createCompositeKey r cks) seen.toFinset := by
        ext x
        simp only [List.mem_toFinset, List.mem_append, List.mem_singleton, Finset.mem_insert]
        tauto
      rw [hspec, List.length_cons, ih (seen ++ [createCompositeKey r cks]), hseen,
        List.map_cons, List.toFinset_cons, card_insert_sdiff_not_mem hk]

/-- Invariant of the getDuplicateStats loop: the final uniqueData extends the
initial one by the reference first-occurrence pass, the duplicateSet mirrors
the keys of the duplicates array, and every processed record lands either in
uniqueData or in exactly one duplicateCount unit. -/
theorem dedup_fold_spec (cks : List String) :
    ∀ (rs : List JSRecord) (st : DedupState),
    st.duplicateSet = st.duplicates.map DupEntry.compositeKey →
    ((rs.foldl (dedupStep cks) st).uniqueData
        = st.uniqueData ++ specFirstOccurrences cks rs st.uniqueKeys)
    ∧ ((rs.foldl (dedupStep cks) st).duplicateSet
        = (rs.foldl (dedupStep cks) st).duplicates.map DupEntry.compositeKey)
    ∧ (((rs.foldl (dedupStep cks) st).duplicates.map DupEntry.duplicateCount).sum
        + (rs.foldl (dedupStep cks) st).uniqueData.length
      = (st.duplicates.map DupEntry.duplicateCount).sum + st.uniqueData.length + rs.length) := by
  intro rs
  induction rs with
  | nil =>
    intro st hinv
    refine ⟨by simp [specFirstOccurrences], by simpa using hinv, by simp⟩
  | cons r t ih =>
    intro st hinv
    rw [List.foldl_cons]
    cases h1 : memStr (createCompositeKey r cks) st.uniqueKeys with
    | true =>
      cases h2 : memStr (createCompositeKey r cks) st.duplicateSet with
      | true =>
        have hstep : dedupStep cks st r
            = { st with duplicates := bumpDup (createCompositeKey r cks) st.duplicates } := by
          simp [dedupStep, h1, h2]
        rw [hstep]
        obtain ⟨ih1, ih2, ih3⟩ :=
          ih { st with duplicates := bumpDup (createCompositeKey r cks) st.duplicates }
            (by simpa [bumpDup_map_key] using hinv)
        refine ⟨?_, ih2, ?_⟩
        · rw [ih1]
          simp [specFirstOccurrences, h1]
        · rw [ih3]
          have hkmem : createCompositeKey r cks ∈ st.duplicates.map DupEntry.compositeKey := by
            rw [← hinv]
            exact (memStr_iff _ _).mp h2
          simp only [bumpDup_sum _ _ hkmem, List.length_cons]
          omega
      | false =>
        have hstep : dedupStep cks st r
            = { st with
                duplicates := st.duplicates ++ [DupEntry.mk r (createCompositeKey r cks) 1],
                duplicateSet := st.duplicateSet ++ [createCompositeKey r cks] } := by
          simp [dedupStep, h1, h2]
        rw [hstep]
        obtain ⟨ih1, ih2, ih3⟩ :=
          ih { st with
                duplicates := st.duplicates ++ [DupEntry.mk r (createCompositeKey r cks) 1],
                duplicateSet := st.duplicateSet ++ [createCompositeKey r cks] }
            (by simp [hinv])
        refine ⟨?_, ih2, ?_⟩
        · rw [ih1]
          simp [specFirstOccurrences, h1]
        · rw [ih3]
          simp only [List.map_append, List.sum_append, List.map_cons, List.sum_cons,
            List.length_cons, List.map_nil, List.sum_nil]
          omega
    | false =>
      have hstep : dedupStep cks st r
          = { st with
              uniqueKeys := st.uniqueKeys ++ [createCompositeKey r cks],
              uniqueData := st.uniqueData ++ [r] } := by
        simp [dedupStep, h1]
      rw [hstep]
      obtain ⟨ih1, ih2, ih3⟩ :=
        ih { st with
              uniqueKeys := st.uniqueKeys ++ [createCompositeKey r cks],
              uniqueData := st.uniqueData ++ [r] }
          (by simpa using hinv)
      refine ⟨?_, ih2, ?_⟩
      · rw [ih1]
        simp [specFirstOccurrences, h1]
      · rw [ih3]
        simp only [List.length_append, List.length_cons, List.length_nil]
        omega

/-- Claim C3: for a record list of size N producing U distinct dedup keys,
getDuplicateStats returns a uniqueRecords list that is exactly the first
record observed for each key in first-occurrence order (so its length is U
and no later same-key record replaces or merges into it), and the
duplicateCounts of the returned duplicate entries sum to N - U. -/
theorem C3_dedup_conservation (data : List JSRecord) (cks : List String) :
    (getDuplicateStats data cks).uniqueRecords = specFirstOccurrences cks data []
    ∧ (getDuplicateStats data cks).uniqueRecords.length
        = ((data.map (fun r => createCompositeKey r cks)).toFinset).card
    ∧ ((getDuplicateStats data cks).duplicateRecords.map DupEntry.duplicateCount).sum
        = data.length - ((data.map (fun r => createCompositeKey r cks)).toFinset).card := by
  obtain ⟨h1, _h2, h3⟩ := dedup_fold_spec cks data ⟨[], [], [], []⟩ rfl
  have hu : (getDuplicateStats data cks).uniqueRecords
      = specFirstOccurrences cks data [] := by
    simpa [getDuplicateStats] using h1
  have hlen : (specFirstOccurrences cks data []).length
      = ((data.map (fun r => createCompositeKey r cks)).toFinset).card := by
    rw [specFirstOccurrences_length]
    simp
  have hU : (getDuplicateStats data cks).uniqueRecords.length
      = ((data.map (fun r => createCompositeKey r cks)).toFinset).card := by
    rw [hu, hlen]
  have hsum : ((getDuplicateStats data cks).duplicateRecords.map DupEntry.duplicateCount).sum
      + (getDuplicateStats data cks).uniqueRecords.length = data.length := by
    simpa [getDuplicateStats] using h3
  exact ⟨hu, hU, by omega⟩

theorem lookupGroup_groupInsert (key : String) (r : JSRecord) (m : GroupMap) (key' : String) :
    lookupGroup (groupInsert key r m) key'
      = lookupGroup m key' ++ (if key' = key then [r] else []) := by
  induction m with
  | nil =>
    simp only [groupInsert, lookupGroup, List.nil_append]
    by_cases h : key = key'
    · rw [if_pos h, if_pos h.symm]
    · have h' : ¬(key' = key) := fun hh => h hh.symm
      rw [if_neg h, if_neg h']
  | cons e t ih =>
    obtain ⟨k, g⟩ := e
    by_cases hk : k = key
    · by_cases hk' : k = key'
      · have h1 : key' = key := hk'.symm.trans hk
        simp [groupInsert, lookupGroup, hk, hk', h1]
      · have h1 : ¬(key' = key) := fun hh => hk' (hk.trans hh.symm)
        have h2 : ¬(key = key') := fun hh => hk' (hk.trans hh)
        simp [groupInsert, lookupGroup, hk, hk', h1, h2]
    · by_cases hk' : k = key'
      · have h1 : ¬(key' = key) := fun hh => hk (hk'.trans hh)
        simp [groupInsert, lookupGroup, hk, hk', h1]
      · simp [groupInsert, lookupGroup, hk, hk', ih]

theorem hasGroup_groupInsert (key : String) (r : JSRecord) (m : GroupMap) (key' : String) :
    hasGroup (groupInsert key r m) key'
      = (hasGroup m key' || decide (key' = key)) := by
  induction m with
  | nil =>
    simp only [groupInsert, hasGroup, Bool.false_or]
    by_cases h : key = key'
    · rw [if_pos h]
      simp [h.symm]
    · have h' : ¬(key' = key) := fun hh => h hh.symm
      rw [if_neg h]
      simp [h']
  | cons e t ih =>
    obtain ⟨k, g⟩ := e
    by_cases hk : k = key
    · by_cases hk' : k = key'
      · have h1 : key' = key := hk'.symm.trans hk
        simp [groupInsert, hasGroup, hk, hk', h1]
      · have h1 : ¬(key' = key) := fun hh => hk' (hk.trans hh.symm)
        simp [groupInsert, hasGroup, hk, hk', h1]
    · by_cases hk' : k = key'
      · have h1 : ¬(key' = key) := fun hh => hk (hk'.trans hh)
        simp [groupInsert, hasGroup, hk, hk', h1]
      · simp [groupInsert, hasGroup, hk, hk', ih]

theorem lookupGroup_foldl (cks : List String) :
    ∀ (rs : List JSRecord) (m : GroupMap) (key : String),
    lookupGroup (rs.foldl (fun m r => groupInsert (createCompositeKey r cks) r m) m) key
      = lookupGroup m key ++ rs.filter (fun r => decide (createCompositeKey r cks = key)) := by
  intro rs
  induction rs with
  | nil => intro m key; simp
  | cons r t ih =>
    intro m key
    rw [List.foldl_cons, ih, lookupGroup_groupInsert]
    by_cases h : createCompositeKey r cks = key
    · simp [List.filter_cons, h, if_pos h.symm]
    · have h' : ¬(key = createCompositeKey r cks) := fun hh => h hh.symm
      simp [List.filter_cons, h, h']

/-- The group of a key collects exactly the records carrying that key,
in input order. -/
theorem lookupGroup_buildGroups (cks : List String) (rs : List JSRecord) (key : String) :
    lookupGroup (buildGroups cks rs) key
      = rs.filter (fun r => decide (createCompositeKey r cks = key)) := by
  rw [buildGroups, lookupGroup_foldl]
  rfl

theorem hasGroup_foldl (cks : List String) :
    ∀ (rs : List JSRecord) (m : GroupMap) (key : String),
    hasGroup (rs.foldl (fun m r => groupInsert (createCompositeKey r cks) r m) m) key
      = (hasGroup m key || rs.any (fun r => decide (createCompositeKey r cks = key))) := by
  intro rs
  induction rs with
  | nil => intro m key; simp
  | cons r t ih =>
    intro m key
    rw [List.foldl_cons, ih, hasGroup_groupInsert]
    by_cases h : createCompositeKey r cks = key
    · simp [List.any_cons, h]
    · have h' : ¬(key = createCompositeKey r cks) := fun hh => h hh.symm
      simp [List.any_cons, h, h']

/-- A key has a group exactly when some record carries it. -/
theorem hasGroup_buildGroups (cks : List String) (rs : List JSRecord) (key : String) :
    hasGroup (buildGroups cks rs) key = true
      ↔ ∃ r ∈ rs, createCompositeKey r cks = key := by
  rw [buildGroups, hasGroup_foldl]
  simp [hasGroup]

theorem hasGroup_iff_mem_keys (m : GroupMap) (key : String) :
    hasGroup m key = true ↔ key ∈ m.map Prod.fst := by
  induction m with
  | nil => simp [hasGroup]
  | cons e t ih =>
    obtain ⟨k, g⟩ := e
    by_cases h : k = key
    · simp [hasGroup, h]
    · have h' : ¬(key = k) := fun hh => h hh.symm
      simp [hasGroup, h, h', ih]

theorem keys_groupInsert_of_hasGroup {m : GroupMap} {key : String} (r : JSRecord)
    (h : hasGroup m key = true) :
    (groupInsert key r m).map Prod.fst = m.map Prod.fst := by
  induction m with
  | nil => simp [hasGroup] at h
  | cons e t ih =>
    obtain ⟨k, g⟩ := e
    by_cases hk : k = key
    · simp [groupInsert, hk]
    · have h' : hasGroup t key = true := by simpa [hasGroup, hk] using h
      simp [groupInsert, hk, ih h']

theorem keys_groupInsert_of_not_hasGroup {m : GroupMap} {key : String} (r : JSRecord)
    (h : hasGroup m key = false) :
    (groupInsert key r m).map Prod.fst = m.map Prod.fst ++ [key] := by
  induction m with
  | nil => simp [groupInsert]
  | cons e t ih =>
    obtain ⟨k, g⟩ := e
    by_cases hk : k = key
    · simp [hasGroup, hk] at h
    · have h' : hasGroup t key = false := by simpa [hasGroup, hk] using h
      simp [groupInsert, hk, ih h']

theorem keys_nodup_foldl (cks : List String) :
    ∀ (rs : List JSRecord) (m : GroupMap),
    (m.map Prod.fst).Nodup →
    (((rs.foldl (fun m r => groupInsert (createCompositeKey r cks) r m) m).map
        Prod.fst).Nodup) := by
  intro rs
  induction rs with
  | nil => intro m h; simpa using h
  | cons r t ih =>
    intro m h
    rw [List.foldl_cons]
    apply ih
    cases hg : hasGroup m (createCompositeKey r cks) with
    | true => rw [keys_groupInsert_of_hasGroup _ hg]; exact h
    | false =>
      rw [keys_groupInsert_of_not_hasGroup _ hg]
      have hnot : createCompositeKey r cks ∉ m.map Prod.fst := by
        intro hmem
        have hc := (hasGroup_iff_mem_keys m _).mpr hmem
        rw [hg] at hc
        exact Bool.false_ne_true hc
      simp [List.nodup_append, h, hnot]

theorem keys_nodup_buildGroups (cks : List String) (rs : List JSRecord) :
    ((buildGroups cks rs).map Prod.fst).Nodup :=
  keys_nodup_foldl cks rs [] (by simp)

theorem lookupGroup_of_mem_nodup :
    ∀ (m : GroupMap), (m.map Prod.fst).Nodup → ∀ {k : String} {g : List JSRecord},
    (k, g) ∈ m → lookupGroup m k = g := by
  intro m
  induction m with
  | nil => intro _ k g h; simp at h
  | cons e t ih =>
    intro hnd k g hmem
    obtain ⟨k', g'⟩ := e
    rw [List.map_cons] at hnd
    obtain ⟨hhead, htail⟩ := List.nodup_cons.mp hnd
    rcases List.mem_cons.mp hmem with heq | hmem'
    · injection heq with h1 h2
      subst h1; subst h2
      simp [lookupGroup]
    · have hk : ¬(k' = k) := by
        intro hh
        subst hh
        exact hhead (List.mem_map.mpr ⟨(k', g), hmem', rfl⟩)
      simp only [lookupGroup, if_neg hk]
      exact ih htail hmem'

theorem hasGroup_of_mem : ∀ (m : GroupMap) (e : String × List JSRecord),
    e ∈ m → hasGroup m e.1 = true := by
  intro m
  induction m with
  | nil => intro e h; simp at h
  | cons e' t ih =>
    intro e h
    obtain ⟨k, g⟩ := e'
    rcases List.mem_cons.mp h with rfl | h'
    · simp [hasGroup]
    · by_cases hk : k = e.1
      · simp [hasGroup, hk]
      · simp [hasGroup, hk, ih e h']

theorem mem_of_hasGroup : ∀ (m : GroupMap) (key : String),
    hasGroup m key = true → (key, lookupGroup m key) ∈ m := by
  intro m
  induction m with
  | nil => intro key h; simp [hasGroup] at h
  | cons e t ih =>
    intro key h
    obtain ⟨k, g⟩ := e
    by_cases hk : k = key
    · subst hk
      simp [lookupGroup]
    · have h' : hasGroup t key = true := by simpa [hasGroup, hk] using h
      simp only [lookupGroup, if_neg hk]
      exact List.mem_cons_of_mem _ (ih key h')

theorem mem_buildGroups_eq_lookup {cks : List String} {rs : List JSRecord}
    {e : String × List JSRecord} (h : e ∈ buildGroups cks rs) :
    e.2 = lookupGroup (buildGroups cks rs) e.1 := by
  obtain ⟨k, g⟩ := e
  exact (lookupGroup_of_mem_nodup _ (keys_nodup_buildGroups cks rs) h).symm

theorem mem_buildGroups_nonempty {cks : List String} {rs : List JSRecord}
    {e : String × List JSRecord} (h : e ∈ buildGroups cks rs) : e.2 ≠ [] := by
  have hhas : hasGroup (buildGroups cks rs) e.1 = true := hasGroup_of_mem _ _ h
  obtain ⟨r, hr, hkey⟩ := (hasGroup_buildGroups cks rs e.1).mp hhas
  have hmem2 : r ∈ rs.filter (fun r => decide (createCompositeKey r cks = e.1)) := by
    rw [List.mem_filter]
    exact ⟨hr, by simp [hkey]⟩
  rw [mem_buildGroups_eq_lookup h, lookupGroup_buildGroups]
  exact List.ne_nil_of_mem hmem2

theorem sumLens_groupInsert (key : String) (r : JSRecord) (m : GroupMap) :
    ((groupInsert key r m).map (fun e => e.2.length)).sum
      = (m.map (fun e => e.2.length)).sum + 1 := by
  induction m with
  | nil => simp [groupInsert]
  | cons e t ih =>
    obtain ⟨k, g⟩ := e
    by_cases hk : k = key
    · simp only [groupInsert, if_pos hk, List.map_cons, List.sum_cons, List.length_append]
      simp
      omega
    · simp only [groupInsert, if_neg hk, List.map_cons, List.sum_cons, ih]
      omega

theorem sumLens_foldl (cks : List String) :
    ∀ (rs : List JSRecord) (m : GroupMap),
    (((rs.foldl (fun m r => groupInsert (createCompositeKey r cks) r m) m).map
        (fun e => e.2.length)).sum)
      = (m.map (fun e => e.2.length)).sum + rs.length := by
  intro rs
  induction rs with
  | nil => intro m; simp
  | cons r t ih =>
    intro m
    rw [List.foldl_cons, ih, sumLens_groupInsert]
    simp only [List.length_cons]
    omega

/-- Grouping conserves records: the group sizes sum to the input size. -/
theorem sumLens_buildGroups (cks : List String) (rs : List JSRecord) :
    (((buildGroups cks rs).map (fun e => e.2.length)).sum) = rs.length := by
  rw [buildGroups, sumLens_foldl]
  simp

theorem lookupGroup_of_not_hasGroup : ∀ (m : GroupMap) (key : String),
    hasGroup m key = false → lookupGroup m key = [] := by
  intro m
  induction m with
  | nil => intro key _; rfl
  | cons e t ih =>
    intro key h
    obtain ⟨k, g⟩ := e
    by_cases hk : k = key
    · simp [hasGroup, hk] at h
    · simp only [lookupGroup, if_neg hk]
      exact ih key (by simpa [hasGroup, hk] using h)

/-- A successful compareData run means every store-side group is a singleton
(or the store map is empty) and the result is the assembled reportData. -/
theorem compareData_some {src store : List JSRecord} {cks em : List String} {rd : ReportData}
    (h : compareData src store cks em = some rd) :
    (∀ e ∈ buildGroups cks store, e.2.length ≤ 1)
    ∧ rd = mkReportData (buildGroups cks src) (buildGroups cks store) em := by
  simp only [compareData] at h
  split at h
  · exact Option.noConfusion h
  · rename_i hany
    refine ⟨?_, (Option.some.inj h).symm⟩
    intro e he
    by_contra hlen
    apply hany
    rw [List.any_eq_true]
    exact ⟨e, he, by simp; omega⟩

/-- Claim C1: if two store records share the same composite compare key,
compareData returns the failure result and emits no addition, deletion,
update or match lists (the none result carries no reportData at all). -/
theorem C1_uniqueness_violation (src store : List JSRecord) (cks em : List String)
    (k : String) (hcks : cks ≠ [])
    (hdup : 2 ≤ (store.filter (fun r => decide (createCompositeKey r cks = k))).length) :
    compareData src store cks em = none := by
  have hlook : lookupGroup (buildGroups cks store) k
      = store.filter (fun r => decide (createCompositeKey r cks = k)) :=
    lookupGroup_buildGroups cks store k
  have hne : lookupGroup (buildGroups cks store) k ≠ [] := by
    rw [hlook]
    intro hnil
    rw [hnil] at hdup
    simp at hdup
  cases hhas : hasGroup (buildGroups cks store) k with
  | false => exact absurd (lookupGroup_of_not_hasGroup _ _ hhas) hne
  | true =>
    have hmem : (k, lookupGroup (buildGroups cks store) k) ∈ buildGroups cks store :=
      mem_of_hasGroup _ _ hhas
    have hany : (buildGroups cks store).any (fun e => decide (1 < e.2.length)) = true := by
      rw [List.any_eq_true]
      refine ⟨(k, lookupGroup (buildGroups cks store) k), hmem, ?_⟩
      rw [hlook]
      simp only [decide_eq_true_eq]
      omega
    simp only [compareData, hany]
    rfl

theorem C1_witness :
    ((["a"] : List String) ≠ []
      ∧ 2 ≤ ((([[("a", JSValue.vnum 1)], [("a", JSValue.vnum 1)]] : List JSRecord).filter
          (fun r => decide (createCompositeKey r ["a"] = "1"))).length))
    ∧ compareData [] [[("a", JSValue.vnum 1)], [("a", JSValue.vnum 1)]] ["a"] [] = none := by
  refine ⟨⟨by decide, by decide⟩, ?_⟩
  exact C1_uniqueness_violation [] [[("a", JSValue.vnum 1)], [("a", JSValue.vnum 1)]]
    ["a"] [] "1" (by decide) (by decide)

/-- Claim C9: compareData is a pure function of its four inputs; reconciling
the same inputs twice yields identical ChangeSets, with no hidden state. -/
theorem C9_determinism (src1 store1 src2 store2 : List JSRecord)
    (cks1 em1 cks2 em2 : List String)
    (hs : src1 = src2) (ht : store1 = store2) (hc : cks1 = cks2) (he : em1 = em2) :
    compareData src1 store1 cks1 em1 = compareData src2 store2 cks2 em2 := by
  rw [hs, ht, hc, he]

theorem C9_witness :
    ([[("a", JSValue.vnum 1)]] : List JSRecord) = [[("a", JSValue.vnum 1)]]
    ∧ compareData [[("a", JSValue.vnum 1)]] [] ["a"] []
        = compareData [[("a", JSValue.vnum 1)]] [] ["a"] [] :=
  ⟨rfl, C9_determinism _ _ _ _ _ _ _ _ rfl rfl rfl rfl⟩

theorem sum_map_ones {α : Type} (l : List α) (f : α → Nat) (h : ∀ e ∈ l, f e = 1) :
    (l.map f).sum = l.length := by
  induction l with
  | nil => rfl
  | cons e t ih =>
    have he := h e (List.mem_cons_self e t)
    have ht := ih fun x hx => h x (List.mem_cons_of_mem _ hx)
    simp only [List.map_cons, List.sum_cons, he, ht, List.length_cons]
    omega

/-- Claim C6: when the compare key sets of the two sides are disjoint and the
run succeeds, the addition count is the number of source records, the
deletion count is the number of store records, and there are no updates and
no matches. -/
theorem C6_disjoint_keys (src store : List JSRecord) (cks em : List String)
    (rd : ReportData)
    (h : compareData src store cks em = some rd)
    (hdisj : ∀ r ∈ src, ∀ r2 ∈ store,
        createCompositeKey r cks ≠ createCompositeKey r2 cks) :
    rd.numberOfRecordsToAddInDB = src.length
    ∧ rd.numberOfRecordsToDeleteFromDB = store.length
    ∧ rd.noOfChangesRequiredInDB = 0
    ∧ rd.noOfExactMatches = 0 := by
  obtain ⟨hle, hrd⟩ := compareData_some h
  subst hrd
  have hxd : ∀ e ∈ buildGroups cks src, hasGroup (buildGroups cks store) e.1 = false := by
    intro e he
    cases hh : hasGroup (buildGroups cks store) e.1 with
    | false => rfl
    | true =>
      obtain ⟨r2, hr2, hk2⟩ := (hasGroup_buildGroups cks store e.1).mp hh
      have hhx : hasGroup (buildGroups cks src) e.1 = true := hasGroup_of_mem _ _ he
      obtain ⟨r, hr, hk⟩ := (hasGroup_buildGroups cks src e.1).mp hhx
      exact absurd (hk.trans hk2.symm) (hdisj r hr r2 hr2)
  have hdx : ∀ e ∈ buildGroups cks store, hasGroup (buildGroups cks src) e.1 = false := by
    intro e he
    cases hh : hasGroup (buildGroups cks src) e.1 with
    | false => rfl
    | true =>
      obtain ⟨r, hr, hk⟩ := (hasGroup_buildGroups cks src e.1).mp hh
      have hhd : hasGroup (buildGroups cks store) e.1 = true := hasGroup_of_mem _ _ he
      obtain ⟨r2, hr2, hk2⟩ := (hasGroup_buildGroups cks store e.1).mp hhd
      exact absurd (hk.trans hk2.symm) (hdisj r hr r2 hr2)
  have hfilterx : (buildGroups cks src).filter
      (fun e => !hasGroup (buildGroups cks store) e.1) = buildGroups cks src := by
    rw [List.filter_eq_self]
    intro e he
    rw [hxd e he]
    rfl
  have hfilterd : (buildGroups cks store).filter
      (fun e => !hasGroup (buildGroups cks src) e.1) = buildGroups cks store := by
    rw [List.filter_eq_self]
    intro e he
    rw [hdx e he]
    rfl
  have hoverlap : (buildGroups cks src).filter
      (fun e => hasGroup (buildGroups cks store) e.1) = [] := by
    rw [List.filter_eq_nil_iff]
    intro e he
    rw [hxd e he]
    simp
  have hsingle : ∀ e ∈ buildGroups cks store, e.2.length = 1 := by
    intro e he
    have h1 := hle e he
    have h2 : e.2 ≠ [] := mem_buildGroups_nonempty he
    have h3 : 0 < e.2.length := List.length_pos.mpr h2
    omega
  refine ⟨?_, ?_, ?_, ?_⟩
  · simp only [mkReportData, hfilterx, List.map_map]
    have : ((buildGroups cks src).map (List.length ∘ fun e => e.2)).sum
        = ((buildGroups cks src).map (fun e => e.2.length)).sum := rfl
    rw [this, sumLens_buildGroups]
  · simp only [mkReportData, hfilterd, List.length_map]
    have hsum := sumLens_buildGroups cks store
    rw [sum_map_ones _ _ hsingle] at hsum
    exact hsum
  · simp only [mkReportData, hoverlap, List.filter_nil, List.map_nil, List.length_nil]
  · simp only [mkReportData, hoverlap, List.filter_nil, List.map_nil, List.length_nil]

theorem C6_witness :
    (compareData [[("a", JSValue.vnum 1)]] [[("a", JSValue.vnum 2)]] ["a"] []
        = some (mkReportData (buildGroups ["a"] [[("a", JSValue.vnum 1)]])
            (buildGroups ["a"] [[("a", JSValue.vnum 2)]]) []))
    ∧ (∀ r ∈ ([[("a", JSValue.vnum 1)]] : List JSRecord),
        ∀ r2 ∈ ([[("a", JSValue.vnum 2)]] : List JSRecord),
        createCompositeKey r ["a"] ≠ createCompositeKey r2 ["a"])
    ∧ (mkReportData (buildGroups ["a"] [[("a", JSValue.vnum 1)]])
        (buildGroups ["a"] [[("a", JSValue.vnum 2)]]) []).numberOfRecordsToAddInDB = 1 := by
  have h1 : compareData [[("a", JSValue.vnum 1)]] [[("a", JSValue.vnum 2)]] ["a"] []
      = some (mkReportData (buildGroups ["a"] [[("a", JSValue.vnum 1)]])
          (buildGroups ["a"] [[("a", JSValue.vnum 2)]]) []) := by decide
  have h2 : ∀ r ∈ ([[("a", JSValue.vnum 1)]] : List JSRecord),
      ∀ r2 ∈ ([[("a", JSValue.vnum 2)]] : List JSRecord),
      createCompositeKey r ["a"] ≠ createCompositeKey r2 ["a"] := by decide
  exact ⟨h1, h2, (C6_disjoint_keys _ _ _ _ _ h1 h2).1⟩

/-- Every pair listed in exactMatches passed isEqual and every pair listed in
changesRequiredInDB failed it. -/
theorem mkReportData_members (excelMap dbMap : GroupMap) (em : List String) :
    (∀ p ∈ (mkReportData excelMap dbMap em).exactMatches, isEqual p.1 p.2 em = true)
    ∧ (∀ p ∈ (mkReportData excelMap dbMap em).changesRequiredInDB,
        isEqual p.1 p.2 em = false) := by
  constructor
  · intro p hp
    simp only [mkReportData] at hp
    obtain ⟨e, he, hpe⟩ := List.mem_map.mp hp
    obtain ⟨he1, he2⟩ := List.mem_filter.mp he
    subst hpe
    simpa using he2
  · intro p hp
    simp only [mkReportData] at hp
    obtain ⟨e, he, hpe⟩ := List.mem_map.mp hp
    obtain ⟨he1, he2⟩ := List.mem_filter.mp he
    subst hpe
    simpa using he2

/-- An overlapping key is pushed to exactMatches when isEqual accepts it and
to changesRequiredInDB when isEqual rejects it. -/
theorem mkReportData_classify (excelMap dbMap : GroupMap) (em : List String)
    {k : String} {ers : List JSRecord}
    (hx : (k, ers) ∈ excelMap) (hd : hasGroup dbMap k = true) :
    (isEqual ers (lookupGroup dbMap k) em = true
      → (ers, lookupGroup dbMap k) ∈ (mkReportData excelMap dbMap em).exactMatches)
    ∧ (isEqual ers (lookupGroup dbMap k) em = false
      → (ers, lookupGroup dbMap k) ∈ (mkReportData excelMap dbMap em).changesRequiredInDB) := by
  constructor
  · intro hiso
    simp only [mkReportData]
    apply List.mem_map.mpr
    refine ⟨(k, ers), ?_, rfl⟩
    rw [List.mem_filter]
    refine ⟨?_, by simpa using hiso⟩
    rw [List.mem_filter]
    exact ⟨hx, hd⟩
  · intro hiso
    simp only [mkReportData]
    apply List.mem_map.mpr
    refine ⟨(k, ers), ?_, rfl⟩
    rw [List.mem_filter]
    refine ⟨?_, by simpa using hiso⟩
    rw [List.mem_filter]
    exact ⟨hx, hd⟩

/-- Claim C7: an overlapping key whose source group holds a different number
of records than its store group is always classified as requiring UPDATE and
never as an exact match, whatever the field values. -/
theorem C7_cardinality_mismatch (src store : List JSRecord) (cks em : List String)
    (rd : ReportData) (k : String)
    (h : compareData src store cks em = some rd)
    (hx : lookupGroup (buildGroups cks src) k ≠ [])
    (hd : lookupGroup (buildGroups cks store) k ≠ [])
    (hne : (lookupGroup (buildGroups cks src) k).length
        ≠ (lookupGroup (buildGroups cks store) k).length) :
    (lookupGroup (buildGroups cks src) k, lookupGroup (buildGroups cks store) k)
        ∈ rd.changesRequiredInDB
    ∧ (lookupGroup (buildGroups cks src) k, lookupGroup (buildGroups cks store) k)
        ∉ rd.exactMatches := by
  obtain ⟨hle, hrd⟩ := compareData_some h
  subst hrd
  have hhx : hasGroup (buildGroups cks src) k = true := by
    cases hh : hasGroup (buildGroups cks src) k with
    | true => rfl
    | false => exact absurd (lookupGroup_of_not_hasGroup _ _ hh) hx
  have hhd : hasGroup (buildGroups cks store) k = true := by
    cases hh : hasGroup (buildGroups cks store) k with
    | true => rfl
    | false => exact absurd (lookupGroup_of_not_hasGroup _ _ hh) hd
  have hmemx : (k, lookupGroup (buildGroups cks src) k) ∈ buildGroups cks src :=
    mem_of_hasGroup _ _ hhx
  have hiso : isEqual (lookupGroup (buildGroups cks src) k)
      (lookupGroup (buildGroups cks store) k) em = false := by
    simp [isEqual, hne]
  refine ⟨(mkReportData_classify _ _ em hmemx hhd).2 hiso, ?_⟩
  intro hmem
  have htrue := (mkReportData_members _ _ em).1 _ hmem
  rw [htrue] at hiso
  exact Bool.noConfusion hiso

theorem C7_witness :
    (compareData
        [[("a", JSValue.vnum 1), ("b", JSValue.vnum 1)],
         [("a", JSValue.vnum 1), ("b", JSValue.vnum 2)]]
        [[("a", JSValue.vnum 1)]] ["a"] []
      = some (mkReportData
          (buildGroups ["a"]
            [[("a", JSValue.vnum 1), ("b", JSValue.vnum 1)],
             [("a", JSValue.vnum 1), ("b", JSValue.vnum 2)]])
          (buildGroups ["a"] [[("a", JSValue.vnum 1)]]) []))
    ∧ (lookupGroup (buildGroups ["a"]
          [[("a", JSValue.vnum 1), ("b", JSValue.vnum 1)],
           [("a", JSValue.vnum 1), ("b", JSValue.vnum 2)]]) "1",
        lookupGroup (buildGroups ["a"] [[("a", JSValue.vnum 1)]]) "1")
        ∈ (mkReportData
            (buildGroups ["a"]
              [[("a", JSValue.vnum 1), ("b", JSValue.vnum 1)],
               [("a", JSValue.vnum 1), ("b", JSValue.vnum 2)]])
            (buildGroups ["a"] [[("a", JSValue.vnum 1)]]) []).changesRequiredInDB := by
  have h1 : compareData
      [[("a", JSValue.vnum 1), ("b", JSValue.vnum 1)],
       [("a", JSValue.vnum 1), ("b", JSValue.vnum 2)]]
      [[("a", JSValue.vnum 1)]] ["a"] []
      = some (mkReportData
          (buildGroups ["a"]
            [[("a", JSValue.vnum 1), ("b", JSValue.vnum 1)],
             [("a", JSValue.vnum 1), ("b", JSValue.vnum 2)]])
          (buildGroups ["a"] [[("a", JSValue.vnum 1)]]) []) := by decide
  refine ⟨h1, ?_⟩
  exact (C7_cardinality_mismatch _ _ _ _ _ "1" h1 (by decide) (by decide) (by decide)).1

/-- Claim C10 (implicit in the code): when the exact-match field list is
empty, isEqual accepts any two groups of equal size, so every overlapping
key with equal group cardinality is classified as an exact match, whatever
the field values on either side. -/
theorem C10_empty_match_fields (src store : List JSRecord) (cks : List String)
    (rd : ReportData) (k : String)
    (h : compareData src store cks [] = some rd)
    (hx : lookupGroup (buildGroups cks src) k ≠ [])
    (hd : lookupGroup (buildGroups cks store) k ≠ [])
    (hcard : (lookupGroup (buildGroups cks src) k).length
        = (lookupGroup (buildGroups cks store) k).length) :
    isEqual (lookupGroup (buildGroups cks src) k)
        (lookupGroup (buildGroups cks store) k) [] = true
    ∧ (lookupGroup (buildGroups cks src) k, lookupGroup (buildGroups cks store) k)
        ∈ rd.exactMatches
    ∧ (lookupGroup (buildGroups cks src) k, lookupGroup (buildGroups cks store) k)
        ∉ rd.changesRequiredInDB := by
  obtain ⟨hle, hrd⟩ := compareData_some h
  subst hrd
  have hhx : hasGroup (buildGroups cks src) k = true := by
    cases hh : hasGroup (buildGroups cks src) k with
    | true => rfl
    | false => exact absurd (lookupGroup_of_not_hasGroup _ _ hh) hx
  have hhd : hasGroup (buildGroups cks store) k = true := by
    cases hh : hasGroup (buildGroups cks store) k with
    | true => rfl
    | false => exact absurd (lookupGroup_of_not_hasGroup _ _ hh) hd
  have hmemx : (k, lookupGroup (buildGroups cks src) k) ∈ buildGroups cks src :=
    mem_of_hasGroup _ _ hhx
  have hiso : isEqual (lookupGroup (buildGroups cks src) k)
      (lookupGroup (buildGroups cks store) k) [] = true := by
    simp [isEqual, hcard]
  refine ⟨hiso, (mkReportData_classify _ _ [] hmemx hhd).1 hiso, ?_⟩
  intro hmem
  have hfalse := (mkReportData_members _ _ []).2 _ hmem
  rw [hiso] at hfalse
  exact Bool.noConfusion hfalse

theorem C10_witness :
    (compareData [[("a", JSValue.vnum 1), ("b", JSValue.vstr "left")]]
        [[("a", JSValue.vnum 1), ("b", JSValue.vstr "right")]] ["a"] []
      = some (mkReportData
          (buildGroups ["a"] [[("a", JSValue.vnum 1), ("b", JSValue.vstr "left")]])
          (buildGroups ["a"] [[("a", JSValue.vnum 1), ("b", JSValue.vstr "right")]]) []))
    ∧ (lookupGroup (buildGroups ["a"]
          [[("a", JSValue.vnum 1), ("b", JSValue.vstr "left")]]) "1",
        lookupGroup (buildGroups ["a"]
          [[("a", JSValue.vnum 1), ("b", JSValue.vstr "right")]]) "1")
        ∈ (mkReportData
            (buildGroups ["a"] [[("a", JSValue.vnum 1), ("b", JSValue.vstr "left")]])
            (buildGroups ["a"] [[("a", JSValue.vnum 1), ("b", JSValue.vstr "right")]])
            []).exactMatches := by
  have h1 : compareData [[("a", JSValue.vnum 1), ("b", JSValue.vstr "left")]]
      [[("a", JSValue.vnum 1), ("b", JSValue.vstr "right")]] ["a"] []
      = some (mkReportData
          (buildGroups ["a"] [[("a", JSValue.vnum 1), ("b", JSValue.vstr "left")]])
          (buildGroups ["a"] [[("a", JSValue.vnum 1), ("b", JSValue.vstr "right")]]) []) := by
    decide
  refine ⟨h1, ?_⟩
  exact (C10_empty_match_fields _ _ _ _ "1" h1 (by decide) (by decide) (by decide)).2.1

/-- The specification wording coincides with what isEqual computes per
field: lowercase strings, then compare strictly. -/
theorem specExactFieldEq_eq (v w : Option JSValue) :
    specExactFieldEq v w = decide (lowerIfString v = lowerIfString w) := by
  rcases v with _ | sv
  · rcases w with _ | sw
    · rfl
    · rcases sw with t | n | b | _ <;> simp [specExactFieldEq, lowerIfString]
  · rcases sv with s | n | b | _ <;> rcases w with _ | sw
    · rfl
    · rcases sw with t | m | c | _ <;> simp [specExactFieldEq, lowerIfString]
    · rfl
    · rcases sw with t | m | c | _ <;> simp [specExactFieldEq, lowerIfString]
    · rfl
    · rcases sw with t | m | c | _ <;> simp [specExactFieldEq, lowerIfString]
    · rfl
    · rcases sw with t | m | c | _ <;> simp [specExactFieldEq, lowerIfString]

/-- For singleton groups, isEqual accepts exactly when every listed field
agrees under the specification's comparison rule. -/
theorem isEqual_singleton_iff (er dr : JSRecord) (em : List String) :
    isEqual [er] [dr] em = true
      ↔ ∀ f ∈ em, specExactFieldEq (jsGet er f) (jsGet dr f) = true := by
  simp only [isEqual, List.length_cons, List.length_nil, List.headD_cons]
  rw [if_neg (by simp)]
  rw [List.all_eq_true]
  constructor
  · intro hall f hf
    rw [specExactFieldEq_eq]
    exact hall f hf
  · intro hall f hf
    rw [← specExactFieldEq_eq]
    exact hall f hf

/-- Claim C5: in subset mode (a non-empty exact-match field list), every
overlapping key whose source and store groups have equal cardinality is a
MATCH exactly when every listed field agrees on the two records involved
(strings case-insensitively, other values exactly), and an UPDATE
otherwise. -/
theorem C5_subset_mode (src store : List JSRecord) (cks em : List String)
    (rd : ReportData) (k : String)
    (hem : em ≠ [])
    (h : compareData src store cks em = some rd)
    (hx : lookupGroup (buildGroups cks src) k ≠ [])
    (hd : lookupGroup (buildGroups cks store) k ≠ [])
    (hcard : (lookupGroup (buildGroups cks src) k).length
        = (lookupGroup (buildGroups cks store) k).length) :
    ∃ er dr, lookupGroup (buildGroups cks src) k = [er]
      ∧ lookupGroup (buildGroups cks store) k = [dr]
      ∧ (((lookupGroup (buildGroups cks src) k, lookupGroup (buildGroups cks store) k)
            ∈ rd.exactMatches)
          ↔ ∀ f ∈ em, specExactFieldEq (jsGet er f) (jsGet dr f) = true)
      ∧ (((lookupGroup (buildGroups cks src) k, lookupGroup (buildGroups cks store) k)
            ∈ rd.changesRequiredInDB)
          ↔ ¬(∀ f ∈ em, specExactFieldEq (jsGet er f) (jsGet dr f) = true)) := by
  obtain ⟨hle, hrd⟩ := compareData_some h
  subst hrd
  have hhx : hasGroup (buildGroups cks src) k = true := by
    cases hh : hasGroup (buildGroups cks src) k with
    | true => rfl
    | false => exact absurd (lookupGroup_of_not_hasGroup _ _ hh) hx
  have hhd : hasGroup (buildGroups cks store) k = true := by
    cases hh : hasGroup (buildGroups cks store) k with
    | true => rfl
    | false => exact absurd (lookupGroup_of_not_hasGroup _ _ hh) hd
  have hmemx : (k, lookupGroup (buildGroups cks src) k) ∈ buildGroups cks src :=
    mem_of_hasGroup _ _ hhx
  have hmemd : (k, lookupGroup (buildGroups cks store) k) ∈ buildGroups cks store :=
    mem_of_hasGroup _ _ hhd
  have hdlen : (lookupGroup (buildGroups cks store) k).length = 1 := by
    have h1 : (lookupGroup (buildGroups cks store) k).length ≤ 1 := hle _ hmemd
    have h2 : 0 < (lookupGroup (buildGroups cks store) k).length :=
      List.length_pos.mpr hd
    omega
  obtain ⟨dr, hdr⟩ := List.length_eq_one.mp hdlen
  obtain ⟨er, her⟩ := List.length_eq_one.mp (by rw [hcard, hdlen])
  have hiso_iff : isEqual (lookupGroup (buildGroups cks src) k)
      (lookupGroup (buildGroups cks store) k) em = true
      ↔ ∀ f ∈ em, specExactFieldEq (jsGet er f) (jsGet dr f) = true := by
    rw [her, hdr, isEqual_singleton_iff]
  refine ⟨er, dr, her, hdr, ?_, ?_⟩
  · constructor
    · intro hmem
      exact hiso_iff.mp ((mkReportData_members _ _ em).1 _ hmem)
    · intro hfields
      exact (mkReportData_classify _ _ em hmemx hhd).1 (hiso_iff.mpr hfields)
  · constructor
    · intro hmem hfields
      have hfalse := (mkReportData_members _ _ em).2 _ hmem
      rw [hiso_iff.mpr hfields] at hfalse
      exact Bool.noConfusion hfalse
    · intro hnot
      have hiso : isEqual (lookupGroup (buildGroups cks src) k)
          (lookupGroup (buildGroups cks store) k) em = false := by
        cases hb : isEqual (lookupGroup (buildGroups cks src) k)
            (lookupGroup (buildGroups cks store) k) em with
        | false => rfl
        | true => exact absurd (hiso_iff.mp hb) hnot
      exact (mkReportData_classify _ _ em hmemx hhd).2 hiso

theorem C5_witness :
    ((["b"] : List String) ≠ []
      ∧ compareData [[("a", JSValue.vnum 1), ("b", JSValue.vstr "X")]]
          [[("a", JSValue.vnum 1), ("b", JSValue.vstr "x")]] ["a"] ["b"]
        = some (mkReportData
            (buildGroups ["a"] [[("a", JSValue.vnum 1), ("b", JSValue.vstr "X")]])
            (buildGroups ["a"] [[("a", JSValue.vnum 1), ("b", JSValue.vstr "x")]]) ["b"]))
    ∧ (∃ er dr,
        lookupGroup (buildGroups ["a"]
            [[("a", JSValue.vnum 1), ("b", JSValue.vstr "X")]]) "1" = [er]
        ∧ lookupGroup (buildGroups ["a"]
            [[("a", JSValue.vnum 1), ("b", JSValue.vstr "x")]]) "1" = [dr]
        ∧ (((lookupGroup (buildGroups ["a"]
                [[("a", JSValue.vnum 1), ("b", JSValue.vstr "X")]]) "1",
             lookupGroup (buildGroups ["a"]
                [[("a", JSValue.vnum 1), ("b", JSValue.vstr "x")]]) "1")
              ∈ (mkReportData
                  (buildGroups ["a"] [[("a", JSValue.vnum 1), ("b", JSValue.vstr "X")]])
                  (buildGroups ["a"] [[("a", JSValue.vnum 1), ("b", JSValue.vstr "x")]])
                  ["b"]).exactMatches)
            ↔ ∀ f ∈ (["b"] : List String),
                specExactFieldEq (jsGet er f) (jsGet dr f) = true)
        ∧ (((lookupGroup (buildGroups ["a"]
                [[("a", JSValue.vnum 1), ("b", JSValue.vstr "X")]]) "1",
             lookupGroup (buildGroups ["a"]
                [[("a", JSValue.vnum 1), ("b", JSValue.vstr "x")]]) "1")
              ∈ (mkReportData
                  (buildGroups ["a"] [[("a", JSValue.vnum 1), ("b", JSValue.vstr "X")]])
                  (buildGroups ["a"] [[("a", JSValue.vnum 1), ("b", JSValue.vstr "x")]])
                  ["b"]).changesRequiredInDB)
            ↔ ¬(∀ f ∈ (["b"] : List String),
                specExactFieldEq (jsGet er f) (jsGet dr f) = true))) := by
  have h1 : compareData [[("a", JSValue.vnum 1), ("b", JSValue.vstr "X")]]
      [[("a", JSValue.vnum 1), ("b", JSValue.vstr "x")]] ["a"] ["b"]
      = some (mkReportData
          (buildGroups ["a"] [[("a", JSValue.vnum 1), ("b", JSValue.vstr "X")]])
          (buildGroups ["a"] [[("a", JSValue.vnum 1), ("b", JSValue.vstr "x")]]) ["b"]) := by
    decide
  refine ⟨⟨by decide, h1⟩, ?_⟩
  exact C5_subset_mode _ _ _ _ _ "1" (by decide) h1 (by decide) (by decide) (by decide)

theorem normalizeValue_of_not_hasValue {v : Option JSValue} (h : hasValue v = false) :
    normalizeValue v = "" := by
  match v with
  | none => rfl
  | some .vnull => rfl
  | some (.vstr s) =>
    have hs : s = "" := by simpa [hasValue] using h
    subst hs
    rfl
  | some (.vnum n) => simp [hasValue] at h
  | some (.vbool b) => simp [hasValue] at h

theorem getChangeType_eq_specClassify {v w : Option JSValue}
    (h : ¬(normalizeValue v = normalizeValue w)) :
    getChangeType v w = specClassify v w := by
  have hnb : ¬(hasValue v = false ∧ hasValue w = false) := by
    rintro ⟨h1, h2⟩
    rw [normalizeValue_of_not_hasValue h1, normalizeValue_of_not_hasValue h2] at h
    exact h rfl
  unfold getChangeType specClassify
  rw [if_neg h]
  cases hv : hasValue v <;> cases hw : hasValue w
  · exact absurd ⟨hv, hw⟩ hnb
  · simp
  · simp
  · simp

theorem mem_findRecordDifferences {excelRecord dbRecord : JSRecord} {d : FieldDifference} :
    d ∈ findRecordDifferences excelRecord dbRecord
      ↔ ∃ f ∈ allFields excelRecord dbRecord,
          ¬(normalizeValue (jsGet excelRecord f) = normalizeValue (jsGet dbRecord f))
          ∧ d = { field := f, excelValue := jsGet excelRecord f,
                  dbValue := jsGet dbRecord f,
                  changeType := getChangeType (jsGet excelRecord f) (jsGet dbRecord f) } := by
  unfold findRecordDifferences
  rw [List.mem_filterMap]
  constructor
  · rintro ⟨f, hf, hfd⟩
    by_cases hne : normalizeValue (jsGet excelRecord f) ≠ normalizeValue (jsGet dbRecord f)
    · rw [if_pos hne] at hfd
      exact ⟨f, hf, hne, (Option.some.inj hfd).symm⟩
    · rw [if_neg hne] at hfd
      exact Option.noConfusion hfd
  · rintro ⟨f, hf, hne, hd⟩
    exact ⟨f, hf, by rw [if_pos hne, hd]⟩

/-- Claim C4: in full mode the differ classifies every field of the union of
field names exactly as the specification states, and the record outcome is
UPDATE precisely when some field is classified other than NO_CHANGE. -/
theorem C4_full_mode_differ (excelRecord dbRecord : JSRecord) :
    (∀ field ∈ allFields excelRecord dbRecord,
        differClassify excelRecord dbRecord field
          = specClassify (jsGet excelRecord field) (jsGet dbRecord field))
    ∧ (recordOutcomeV1 excelRecord dbRecord = "UPDATE"
        ↔ ∃ field ∈ allFields excelRecord dbRecord,
            specClassify (jsGet excelRecord field) (jsGet dbRecord field) ≠ "NO_CHANGE") := by
  have hspec_nochange : ∀ v w : Option JSValue,
      specClassify v w = "NO_CHANGE" ↔ normalizeValue v = normalizeValue w := by
    intro v w
    unfold specClassify
    by_cases hnv : normalizeValue v = normalizeValue w
    · rw [if_pos hnv]
      simp [hnv]
    · rw [if_neg hnv]
      constructor
      · intro hcl
        by_cases h1 : (hasValue v && !hasValue w) = true
        · rw [if_pos h1] at hcl
          exact absurd hcl (by decide)
        · rw [if_neg h1] at hcl
          by_cases h2 : (!hasValue v && hasValue w) = true
          · rw [if_pos h2] at hcl
            exact absurd hcl (by decide)
          · rw [if_neg h2] at hcl
            exact absurd hcl (by decide)
      · intro hcl
        exact absurd hcl hnv
  constructor
  · intro field hfield
    by_cases hne : normalizeValue (jsGet excelRecord field) = normalizeValue (jsGet dbRecord field)
    · have hnone : (findRecordDifferences excelRecord dbRecord).find?
          (fun d => decide (d.field = field)) = none := by
        rw [List.find?_eq_none]
        intro d hd hpd
        obtain ⟨f, hf, hfne, hdf⟩ := mem_findRecordDifferences.mp hd
        subst hdf
        have hfeq : f = field := by simpa using hpd
        subst hfeq
        exact hfne hne
      unfold differClassify
      rw [hnone, ((hspec_nochange _ _).mpr hne).symm]
    · have hmem : FieldDifference.mk field (jsGet excelRecord field) (jsGet dbRecord field)
          (getChangeType (jsGet excelRecord field) (jsGet dbRecord field))
          ∈ findRecordDifferences excelRecord dbRecord :=
        mem_findRecordDifferences.mpr ⟨field, hfield, hne, rfl⟩
      cases hfind : (findRecordDifferences excelRecord dbRecord).find?
          (fun d => decide (d.field = field)) with
      | none =>
        exfalso
        exact List.find?_eq_none.mp hfind _ hmem (by simp)
      | some d =>
        have hpred := List.find?_some hfind
        have hdmem := List.mem_of_find?_eq_some hfind
        obtain ⟨f, hf, hfne, hdf⟩ := mem_findRecordDifferences.mp hdmem
        subst hdf
        have hfeq : f = field := by simpa using hpred
        subst hfeq
        unfold differClassify
        rw [hfind]
        exact getChangeType_eq_specClassify hfne
  · unfold recordOutcomeV1
    by_cases hlen : 0 < (findRecordDifferences excelRecord dbRecord).length
    · rw [if_pos hlen]
      refine iff_of_true rfl ?_
      have hne_nil : findRecordDifferences excelRecord dbRecord ≠ [] := by
        intro hnil
        rw [hnil] at hlen
        simp at hlen
      obtain ⟨d, hd⟩ := List.exists_mem_of_ne_nil _ hne_nil
      obtain ⟨f, hf, hfne, _⟩ := mem_findRecordDifferences.mp hd
      exact ⟨f, hf, fun hcl => hfne ((hspec_nochange _ _).mp hcl)⟩
    · rw [if_neg hlen]
      refine iff_of_false (by decide) ?_
      rintro ⟨f, hf, hcl⟩
      apply hcl
      rw [hspec_nochange]
      by_contra hne
      have hmem := mem_findRecordDifferences.mpr ⟨f, hf, hne, rfl⟩
      exact hlen (List.length_pos.mpr (List.ne_nil_of_mem hmem))

theorem C4_witness :
    ("Type" ∈ allFields [("Type", JSValue.vstr "T1")] [("Type", JSValue.vstr "T2")])
    ∧ differClassify [("Type", JSValue.vstr "T1")] [("Type", JSValue.vstr "T2")] "Type"
        = specClassify (jsGet [("Type", JSValue.vstr "T1")] "Type")
            (jsGet [("Type", JSValue.vstr "T2")] "Type")
    ∧ recordOutcomeV1 [("Type", JSValue.vstr "T1")] [("Type", JSValue.vstr "T2")]
        = "UPDATE" := by
  have hm : "Type" ∈ allFields [("Type", JSValue.vstr "T1")] [("Type", JSValue.vstr "T2")] := by
    decide
  refine ⟨hm, (C4_full_mode_differ _ _).1 "Type" hm, ?_⟩
  apply (C4_full_mode_differ _ _).2.mpr
  exact ⟨"Type", hm, by decide⟩

/-- Claim C8, counterexample: compareData performs no empty-key-spec guard.
With an empty compare key spec it builds the degenerate empty key from zero
fields and proceeds, here returning a success result. -/
theorem C8_counterexample :
    createCompositeKey [("a", JSValue.vnum 1)] [] = ""
    ∧ (compareData [[("a", JSValue.vnum 1)]] [] [] []).isSome = true := by
  exact ⟨by decide, by decide⟩

/-- Any key carried by at least two store records makes compareData fail,
whatever the key spec: the store-side group of that key holds both records,
so the uniqueness gate fires before any report is assembled. -/
theorem compareData_none_of_shared_key (src store : List JSRecord) (cks em : List String)
    (k : String)
    (hdup : 2 ≤ (store.filter (fun r => decide (createCompositeKey r cks = k))).length) :
    compareData src store cks em = none := by
  have hlook : lookupGroup (buildGroups cks store) k
      = store.filter (fun r => decide (createCompositeKey r cks = k)) :=
    lookupGroup_buildGroups cks store k
  have hne : lookupGroup (buildGroups cks store) k ≠ [] := by
    rw [hlook]
    intro hnil
    rw [hnil] at hdup
    simp at hdup
  cases hhas : hasGroup (buildGroups cks store) k with
  | false => exact absurd (lookupGroup_of_not_hasGroup _ _ hhas) hne
  | true =>
    have hmem : (k, lookupGroup (buildGroups cks store) k) ∈ buildGroups cks store :=
      mem_of_hasGroup _ _ hhas
    have hany : (buildGroups cks store).any (fun e => decide (1 < e.2.length)) = true := by
      rw [List.any_eq_true]
      refine ⟨(k, lookupGroup (buildGroups cks store) k), hmem, ?_⟩
      rw [hlook]
      simp only [decide_eq_true_eq]
      omega
    simp only [compareData, hany]
    rfl

/-- Claim C8 (amended): deduplication with an empty or missing key spec
returns the failure result without producing a unique set; comparison,
however, has no such guard: with an empty compare key spec every record is
keyed by the degenerate empty key built from zero fields and compareData
proceeds whenever the store side holds at most one record, while a store of
two or more records collapses onto the single empty key and fails through
the uniqueness check instead of a configuration error. -/
theorem C8_empty_key_spec (data src store store2 : List JSRecord) (em : List String)
    (r : JSRecord) (hstore : store.length ≤ 1) (hstore2 : 2 ≤ store2.length) :
    generateDuplicateReport data none = none
    ∧ generateDuplicateReport data (some []) = none
    ∧ createCompositeKey r [] = ""
    ∧ (compareData src store [] em).isSome = true
    ∧ compareData src store2 [] em = none := by
  refine ⟨rfl, rfl, rfl, ?_, ?_⟩
  · rcases store with _ | ⟨r2, _ | ⟨r3, t⟩⟩
    · simp [compareData, buildGroups]
    · simp [compareData, buildGroups, groupInsert]
    · simp at hstore
  · apply compareData_none_of_shared_key src store2 [] em ""
    have hfilter : store2.filter (fun r => decide (createCompositeKey r [] = "")) = store2 := by
      rw [List.filter_eq_self]
      intro r2 _
      have hk : createCompositeKey r2 [] = "" := rfl
      simp [hk]
    rw [hfilter]
    exact hstore2

theorem C8_witness :
    ((([] : List JSRecord).length ≤ 1)
      ∧ 2 ≤ ([[("a", JSValue.vnum 1)], [("a", JSValue.vnum 2)]] : List JSRecord).length)
    ∧ generateDuplicateReport [[("a", JSValue.vnum 1)]] none = none
    ∧ generateDuplicateReport [[("a", JSValue.vnum 1)]] (some []) = none
    ∧ (compareData [[("a", JSValue.vnum 1)]] [] [] []).isSome = true
    ∧ compareData [[("a", JSValue.vnum 1)]]
        [[("a", JSValue.vnum 1)], [("a", JSValue.vnum 2)]] [] [] = none := by
  have h := C8_empty_key_spec [[("a", JSValue.vnum 1)]] [[("a", JSValue.vnum 1)]] []
    [[("a", JSValue.vnum 1)], [("a", JSValue.vnum 2)]] [] [] (by decide) (by decide)
  exact ⟨⟨by decide, by decide⟩, h.1, h.2.1, h.2.2.2.1, h.2.2.2.2⟩
